import Mathlib

/-!
Verification of the header-accessor subsystem of `paste/httpheaders.py`
(the `HTTPHeader` class hierarchy, its cardinality subclasses, the module
registry, `normalize_headers`, and the specialized `CacheControl`,
`DateHeader`, `SingleValueCGIHeader` accessors).

Python strings are modelled by `String`; a Python value that may be either
`None` or a string is modelled by `Option String`.  Python `AssertionError`,
`AttributeError`, `NotImplementedError` and `paste.httpexceptions.
HTTPBadRequest` are the constructors of `PyErr`; a Python call that may
raise returns `Except PyErr _`.  The WSGI `environ` dictionary is modelled
by `Env` (a string-valued lookup function plus a flag recording whether the
non-string key `wsgi.version` is present); a `response_headers` list is a
`List (String × String)`.
-/

/-- The set of characters removed by the Python method `str.strip()`
when it is called with no argument. -/
def isPySpace (c : Char) : Bool :=
  c = ' ' || c = '\t' || c = '\n' || c = '\r' || c = '\x0b' || c = '\x0c'

/-- Remove trailing characters satisfying `p` (Python `str.rstrip`), on
character lists. -/
def rstripL (p : Char → Bool) (l : List Char) : List Char :=
  (l.reverse.dropWhile p).reverse

/-- Remove leading and trailing characters satisfying `p`, on character
lists. -/
def stripL (p : Char → Bool) (l : List Char) : List Char :=
  rstripL p (l.dropWhile p)

/-- The Python method `str.strip()` with no argument. -/
def pstrip (s : String) : String :=
  ⟨stripL isPySpace s.data⟩

/-- `sep.join(pieces)` on character lists. -/
def joinL (sep : List Char) : List (List Char) → List Char
  | [] => []
  | [x] => x
  | x :: y :: r => x ++ sep ++ joinL sep (y :: r)

/-- The Python method `sep.join(pieces)` on strings. -/
def pjoin (sep : String) (pieces : List String) : String :=
  ⟨joinL sep.data (pieces.map String.data)⟩

/-- The Python method `str.lower()` (the header names handled by the module
are ASCII, where `Char.toLower` agrees with Python). -/
def lowerStr (s : String) : String :=
  ⟨s.data.map Char.toLower⟩

/-- The Python method `str.upper()` for ASCII strings. -/
def upperStr (s : String) : String :=
  ⟨s.data.map Char.toUpper⟩

/-- The Python method `str.replace(a, b)` for one-character patterns. -/
def replaceChar (a b : Char) (s : String) : String :=
  ⟨s.data.map (fun c => if c = a then b else c)⟩

/-- `str(v)` applied to a Python value that is either `None` or a string:
`str(None)` is the string `"None"`. -/
def pyStr : Option String → String
  | none => "None"
  | some s => s

/-- Python truthiness of a value that is either `None` or a string:
`None` and the empty string are falsy. -/
def truthyS : Option String → Bool
  | none => false
  | some s => decide (s ≠ "")

/-- Python truthiness of a value that is either `None` or an int:
`None` and `0` are falsy. -/
def truthyI : Option Int → Bool
  | none => false
  | some n => decide (n ≠ 0)

/-- Python truthiness of a value that is either `None` or a bool. -/
def truthyB : Option Bool → Bool
  | some b => b
  | none => false

/-- The exceptions that the embedded code can raise. -/
inductive PyErr where
  | assertionError
  | attributeError
  | notImplementedError
  | badRequest
deriving DecidableEq

instance {ε α : Type} [DecidableEq ε] [DecidableEq α] : DecidableEq (Except ε α)
  | .ok x, .ok y =>
    if h : x = y then .isTrue (by rw [h]) else .isFalse (by simp [h])
  | .ok _, .error _ => .isFalse (by simp)
  | .error _, .ok _ => .isFalse (by simp)
  | .error x, .error y =>
    if h : x = y then .isTrue (by rw [h]) else .isFalse (by simp [h])

/-- The `category` constructor argument of `HTTPHeader.__new__`
(one of the four strings accepted by the `sort_order` table). -/
inductive HCategory where
  | general
  | request
  | response
  | entity
deriving DecidableEq

/-- Which of the three concrete subclasses an accessor instance belongs to
(`SingleValueHeader`, `MultiValueHeader`, `MultiEntryHeader`); `DateHeader`
and `SingleValueCGIHeader` are `SingleValueHeader`s. -/
inductive HStyle where
  | single
  | multi
  | multiEntry
deriving DecidableEq

/-- The immutable per-field-name state of an `HTTPHeader` instance:
its common-form `name`, its `category`, and its subclass. -/
structure HTTPHeader where
  name : String
  category : HCategory
  style : HStyle
deriving DecidableEq

namespace HTTPHeader

/-- `self.sort_order`, from the table
`{'general': 1, 'request': 2, 'response': 3, 'entity': 4}`. -/
def sortOrder (h : HTTPHeader) : Nat :=
  match h.category with
  | .general => 1
  | .request => 2
  | .response => 3
  | .entity => 4

/-- `self._environ_name`, the WSGI `environ` key of the header:
`'HTTP_' + self.name.upper().replace("-", "_")`. -/
def environName (h : HTTPHeader) : String :=
  "HTTP_" ++ replaceChar '-' '_' (upperStr h.name)

/-- `self._headers_name`, the lower-cased field-name used to match entries
of a `response_headers` list. -/
def headersName (h : HTTPHeader) : String :=
  lowerStr h.name

end HTTPHeader

/-- A WSGI `environ` dictionary: the string-valued entries as a lookup
function, plus whether the (tuple-valued) key `'wsgi.version'` is present. -/
structure Env where
  get : String → Option String
  hasWsgiVersion : Bool

/-- Python dictionary assignment `environ[k] = v`. -/
def Env.set (e : Env) (k v : String) : Env :=
  { e with get := fun k' => if k' = k then some v else e.get k' }

/-- A collection argument: either a WSGI `environ` dictionary or a
`response_headers` list. -/
inductive Collection where
  | env : Env → Collection
  | resp : List (String × String) → Collection

/-- The Python return value of a header read: `None`, a string, or (for
`MultiEntryHeader`) a list of strings. -/
inductive HVal where
  | none
  | str : String → HVal
  | list : List String → HVal
deriving DecidableEq

/-- The argument shapes of `HTTPHeader.__call__(*args, **kwargs)`.  The
first `Bool` of the collection shapes records whether further positional
arguments follow the collection (the code asserts `1 == len(args)`); the
last `Bool` of each shape records whether keyword arguments were also
supplied (the code never inspects `kwargs` once `args` is nonempty). -/
inductive PyArgs where
  | noArgs : PyArgs
  | listArg : List (String × String) → Bool → Bool → PyArgs
  | dictArg : Env → Bool → Bool → PyArgs
  | strArgs : List String → Bool → PyArgs

namespace HTTPHeader

/-- `format(*values)` of the three subclasses.  The values may include
Python `None` (only the `SingleValueCGIHeader` fallback produces that),
hence `Option String`; `str(values[0])` turns `None` into `"None"`.
`SingleValueHeader.format` asserts that at most one value is present,
`MultiValueHeader.format` comma-joins, `MultiEntryHeader.format` returns a
list; all three return `None` when no values are given. -/
def format (h : HTTPHeader) (values : List (Option String)) : Except PyErr HVal :=
  match values with
  | [] => .ok .none
  | vs =>
    match h.style with
    | .single =>
      match vs with
      | [v] => .ok (.str (pstrip (pyStr v)))
      | _ => .error .assertionError
    | .multi => .ok (.str (pjoin ", " (vs.map (fun v => pstrip (pyStr v)))))
    | .multiEntry => .ok (.list (vs.map (fun v => pstrip (pyStr v))))

/-- `HTTPHeader.__call__`.  With no positional arguments it is
`format(*compose(**kwargs))` and the base class `compose` raises
`NotImplementedError` (the specialized composers are modelled separately).
A list argument collects the matching entries; a dict argument asserts
`'wsgi.version' in args[0]` and reads the `HTTP_` key, returning `None`
when it is missing; string arguments are passed to `format` directly.
Keyword arguments supplied alongside positional ones are ignored. -/
def call (h : HTTPHeader) : PyArgs → Except PyErr HVal
  | .noArgs => .error .notImplementedError
  | .listArg l extra _kw =>
    if extra then .error .assertionError
    else format h ((l.filter (fun p => lowerStr p.1 = h.headersName)).map (fun p => some p.2))
  | .dictArg e extra _kw =>
    if extra || !e.hasWsgiVersion then .error .assertionError
    else
      match e.get h.environName with
      | none => .ok .none
      | some v => format h [some v]
  | .strArgs vs _kw => format h (vs.map some)

/-- The while-loop of `HTTPHeader.update` on a `response_headers` list:
overwrite the first matching entry with `(self.name, value)`, delete every
later matching entry, and append a new entry when no match was found. -/
def updList (name lowName value : String) : List (String × String) → Bool → List (String × String)
  | [], found => if found then [] else [(name, value)]
  | (k, w) :: rest, found =>
    if lowerStr k = lowName then
      if found then updList name lowName value rest true
      else (name, value) :: updList name lowName value rest true
    else (k, w) :: updList name lowName value rest found

/-- `HTTPHeader.update(collection, *args, **kwargs)` (and the
`MultiEntryHeader.update` override, which raises `NotImplementedError`).
The new value is computed by `__call__`; when it is `None` the code
executes `self.remove(connection)`, which raises `AttributeError` because
`HTTPHeader` has no attribute `remove` (and no name `connection` is in
scope).  Otherwise the value is stored: dict collections get the
`_environ_name` key assigned, list collections go through `updList`. -/
def update (h : HTTPHeader) (c : Collection) (args : PyArgs) :
    Except PyErr (Collection × HVal) :=
  if h.style = .multiEntry then .error .notImplementedError
  else
    match call h args with
    | .error e => .error e
    | .ok .none => .error .attributeError
    | .ok (.str s) =>
      match c with
      | .env e => .ok (.env (e.set h.environName s), .str s)
      | .resp l => .ok (.resp (updList h.name h.headersName s l false), .str s)
    | .ok (.list _) =>
      -- unreachable: only `MultiEntryHeader.format` returns a list, and
      -- `MultiEntryHeader.update` raised `NotImplementedError` above
      .error .attributeError

/-- `HTTPHeader.delete(collection)`: remove every occurrence of the header
(the return value `self` is dropped; the mutated collection is returned). -/
def delete (h : HTTPHeader) : Collection → Collection
  | .env e => .env { e with get := fun k => if k = h.environName then none else e.get k }
  | .resp l => .resp (l.filter (fun p => ¬(lowerStr p.1 = h.headersName)))

end HTTPHeader

/-- `SingleValueCGIHeader.__call__` on a dict argument (`Content-Type` and
`Content-Length`): when the `HTTP_` entry is missing or empty, the
unprefixed CGI variable (`self._environ_name[5:]`) is read and passed to
`format` even when it is `None`; otherwise the base `__call__` runs. -/
def cgiCallDict (h : HTTPHeader) (e : Env) : Except PyErr HVal :=
  if truthyS (e.get h.environName) = false then
    h.format [e.get ⟨h.environName.data.drop 5⟩]
  else h.call (.dictArg e false false)

/-- `CacheControl._compose`.  Keyword parameters in source order; the
`extensions` keyword arguments are modelled as a key/value list.  The
registered `Cache-Control` instance has an empty `self.extensions` map, so
every extension keyword raises (`"unexpected extension used"`).  The
booleans `public`, `private`, `no_cache` may be `None`, `True` or `False`;
`max_age` and `s_maxage` may be `None` or an int (their `isinstance`
asserts are enforced by the types).  The branch guards follow the source:
`private is True` excludes truthy `public`, `no_cache` and `s_maxage`;
`no_cache is True` excludes truthy `public`, `private` and `max_age`;
otherwise `public` must be `None` or `True` and `private`/`no_cache` must
be falsy, and the returned expiry offset is `max_age`. -/
def ccCompose (public priv no_cache : Option Bool) (no_store : Bool)
    (max_age s_maxage : Option Int) (no_transform : Bool)
    (extensions : List (String × String)) :
    Except PyErr (List String × Option Int) :=
  let mods :=
    (if no_store then ["no-store"] else []) ++
    (if no_transform then ["no-transform"] else []) ++
    (match max_age with | some n => ["max-age=" ++ toString n] | none => []) ++
    (match s_maxage with | some n => ["s-maxage=" ++ toString n] | none => [])
  if ¬(extensions = []) then .error .assertionError
  else if priv = some true then
    if truthyB public || truthyB no_cache || truthyI s_maxage then .error .assertionError
    else .ok ("private" :: mods, some 0)
  else if no_cache = some true then
    if truthyB public || truthyB priv || truthyI max_age then .error .assertionError
    else .ok ("no-cache" :: mods, some 0)
  else
    if public = some false then .error .assertionError
    else if truthyB priv || truthyB no_cache then .error .assertionError
    else .ok ("public" :: mods, max_age)

/-- `CacheControl.compose`: `_compose` with the expiry offset dropped. -/
def ccComposeValues (public priv no_cache : Option Bool) (no_store : Bool)
    (max_age s_maxage : Option Int) (no_transform : Bool)
    (extensions : List (String × String)) : Except PyErr (List String) :=
  Except.map Prod.fst
    (ccCompose public priv no_cache no_store max_age s_maxage no_transform extensions)

/-- `get_header(name, raiseError=False)` against an explicit registry
state: the `_headers` dict maps `self.name.lower()` to the instance, and
the lookup key is `name.strip().lower().replace("_", "-")`. -/
def getHeaderIn (reg : List (String × HTTPHeader)) (name : String) : Option HTTPHeader :=
  (reg.find? (fun p => p.1 = replaceChar '_' '-' (lowerStr (pstrip name)))).map (fun p => p.2)

/-- `HTTPHeader.__new__(cls, name, category)` over an explicit `_headers`
registry state.  When the name is already registered, the three
re-registration asserts run (same capitalization, same `category`
argument, same class) and the existing instance is returned.  Otherwise a
new instance is created and registered — but `__new__` falls off the end
without `return self`, so the constructor call evaluates to `None`; the
result of the call is the second component. -/
def headerNew (reg : List (String × HTTPHeader)) (cls : HStyle) (name : String)
    (category : Option HCategory) :
    Except PyErr (List (String × HTTPHeader) × Option HTTPHeader) :=
  match getHeaderIn reg name with
  | some self =>
    if ¬(self.name = name) then .error .assertionError
    else if ¬(category = some self.category) then .error .assertionError
    else if ¬(cls = self.style) then .error .assertionError
    else .ok (reg, some self)
  | none =>
    .ok ((lowerStr name, (⟨name, category.getD .general, cls⟩ : HTTPHeader)) :: reg, none)

/-- The six fields of an RFC-1123 date string, as rendered by
`rfc822.formatdate` and recovered by `rfc822.parsedate_tz`.  The wire
string determines exactly these fields (the weekday name is ignored by the
parser and the zone of a composed value is always GMT), so the shallow
embedding works with the fields directly. -/
structure DateRec where
  year : Nat
  month : Nat
  day : Nat
  hour : Nat
  minute : Nat
  second : Nat
deriving DecidableEq

/-- Gregorian leap-year rule. -/
def isLeap (y : Nat) : Bool :=
  y % 4 = 0 && (y % 100 != 0 || y % 400 = 0)

/-- Number of days of year `y`. -/
def yearLen (y : Nat) : Nat :=
  if isLeap y then 366 else 365

/-- The month lengths of year `y`. -/
def monthLengths (y : Nat) : List Nat :=
  [31, if isLeap y then 29 else 28, 31, 30, 31, 30, 31, 31, 30, 31, 30, 31]

/-- Walk forward from year `y` until the remaining day count `d` falls
inside a year; returns the year and the day-of-year remainder.  This is
the year computation of the `time.gmtime` conversion used by
`rfc822.formatdate`. -/
def findYear (y d : Nat) : Nat × Nat :=
  if _h : d < yearLen y then (y, d) else findYear (y + 1) (d - yearLen y)
termination_by d
decreasing_by
  have h365 : 365 ≤ yearLen y := by unfold yearLen; split <;> omega
  omega

/-- Walk through a month-length list; returns the zero-based month index
and the zero-based day-of-month remainder. -/
def findMonth : List Nat → Nat → Nat × Nat
  | [], d => (0, d)
  | m :: ms, d =>
    if d < m then (0, d)
    else ((findMonth ms (d - m)).1 + 1, (findMonth ms (d - m)).2)

/-- `rfc822.formatdate(t)` for a nonnegative epoch-seconds value `t`,
modelled as the civil fields of the produced RFC-1123 string (UTC). -/
def formatdate (t : Nat) : DateRec :=
  let days := t / 86400
  let rem := t % 86400
  let yr := findYear 1970 days
  let mo := findMonth (monthLengths yr.1) yr.2
  ⟨yr.1, mo.1 + 1, mo.2 + 1, rem / 3600, rem % 3600 / 60, rem % 60⟩

/-- Days of the `k` consecutive years starting at year `y`. -/
def sumYears (y : Nat) : Nat → Nat
  | 0 => 0
  | k + 1 => yearLen y + sumYears (y + 1) k

/-- Days of the years from 1970 up to (excluding) year `y`. -/
def daysBeforeYear (y : Nat) : Nat :=
  sumYears 1970 (y - 1970)

/-- `rfc822.mktime_tz(rfc822.parsedate_tz(value))` for a GMT value:
the UTC civil fields converted back to epoch seconds. -/
def mktimeTz (d : DateRec) : Nat :=
  (daysBeforeYear d.year + ((monthLengths d.year).take (d.month - 1)).sum + (d.day - 1)) * 86400
    + d.hour * 3600 + d.minute * 60 + d.second

/-- `DateHeader.compose(time=..., delta=...)`:
`time = time or now()` substitutes the current clock when `time` is `None`
or `0` (Python truthiness), `delta` is added when truthy, and the result
is `(formatdate(time),)`.  `nowv` is the value of `time.time()`. -/
def dateCompose (nowv : Nat) (time : Option Nat) (delta : Option Nat) : DateRec :=
  let t := match time with
    | some n => if n = 0 then nowv else n
    | none => nowv
  let t := match delta with
    | some d => if d = 0 then t else t + d
    | none => t
  formatdate t

/-- `DateHeader.time(value)` applied to a composed field-value: the value
string is passed through `__call__` (which only strips it, a no-op for a
composed RFC-1123 string) and parsed back to epoch seconds. -/
def dateTime (d : DateRec) : Nat :=
  mktimeTz d

/-- The header instances registered by the module: the five specialized
declarations (`CacheControl`, `ContentType`, `ContentLength`,
`ContentDisposition`, `IfModifiedSince`) followed by the generated
declarations of the module-level table, in source order.  `date-header`
rows are `DateHeader` subclasses of `SingleValueHeader`, hence `single`. -/
def theHeaders : List HTTPHeader := [
  ⟨"Cache-Control", .general, .multi⟩,
  ⟨"Content-Type", .entity, .single⟩,
  ⟨"Content-Length", .entity, .single⟩,
  ⟨"Content-Disposition", .entity, .single⟩,
  ⟨"If-Modified-Since", .request, .single⟩,
  ⟨"Accept", .request, .multi⟩,
  ⟨"Accept-Charset", .request, .multi⟩,
  ⟨"Accept-Encoding", .request, .multi⟩,
  ⟨"Accept-Language", .request, .multi⟩,
  ⟨"Accept-Ranges", .response, .multi⟩,
  ⟨"Age", .response, .single⟩,
  ⟨"Allow", .entity, .multi⟩,
  ⟨"Authorization", .request, .single⟩,
  ⟨"Cookie", .request, .multi⟩,
  ⟨"Connection", .general, .multi⟩,
  ⟨"Content-Encoding", .entity, .multi⟩,
  ⟨"Content-Language", .entity, .multi⟩,
  ⟨"Content-Location", .entity, .single⟩,
  ⟨"Content-MD5", .entity, .single⟩,
  ⟨"Content-Range", .entity, .single⟩,
  ⟨"Date", .general, .single⟩,
  ⟨"ETag", .response, .single⟩,
  ⟨"Expect", .request, .multi⟩,
  ⟨"Expires", .entity, .single⟩,
  ⟨"From", .request, .single⟩,
  ⟨"Host", .request, .single⟩,
  ⟨"If-Match", .request, .multi⟩,
  ⟨"If-None-Match", .request, .multi⟩,
  ⟨"If-Range", .request, .single⟩,
  ⟨"If-Unmodified-Since", .request, .single⟩,
  ⟨"Last-Modified", .entity, .single⟩,
  ⟨"Location", .response, .single⟩,
  ⟨"Max-Forwards", .request, .single⟩,
  ⟨"Pragma", .general, .multi⟩,
  ⟨"Proxy-Authenticate", .response, .multi⟩,
  ⟨"Proxy-Authorization", .request, .single⟩,
  ⟨"Range", .request, .multi⟩,
  ⟨"Referer", .request, .single⟩,
  ⟨"Retry-After", .response, .single⟩,
  ⟨"Server", .response, .single⟩,
  ⟨"Set-Cookie", .response, .multiEntry⟩,
  ⟨"TE", .request, .multi⟩,
  ⟨"Trailer", .general, .multi⟩,
  ⟨"Transfer-Encoding", .general, .multi⟩,
  ⟨"Upgrade", .general, .multi⟩,
  ⟨"User-Agent", .request, .single⟩,
  ⟨"Vary", .response, .multi⟩,
  ⟨"Via", .general, .multi⟩,
  ⟨"Warning", .general, .multiEntry⟩,
  ⟨"WWW-Authenticate", .response, .multiEntry⟩]

/-- `get_header(name)` against the fully populated module registry:
`_headers` is keyed by `self.name.lower()` and the lookup key is
`name.strip().lower().replace("_", "-")`. -/
def getHeader (name : String) : Option HTTPHeader :=
  theHeaders.find? (fun h => lowerStr h.name = replaceChar '_' '-' (lowerStr (pstrip name)))

/-- The Python method `str.capitalize()`: first character upper-cased,
the rest lower-cased (ASCII). -/
def capitalizeL : List Char → List Char
  | [] => []
  | c :: cs => Char.toUpper c :: cs.map Char.toLower

/-- The Python method `str.split("-")`. -/
def splitDashL : List Char → List (List Char)
  | [] => [[]]
  | c :: rest =>
    match splitDashL rest with
    | [] => [[]]
    | g :: gs => if c = '-' then [] :: g :: gs else (c :: g) :: gs

/-- The name rewriting that `normalize_headers` applies to an unknown
header key: `'-'.join(x.capitalize() for x in key.replace("_","-").split("-"))`. -/
def canonicalUnknown (k : String) : String :=
  ⟨joinL ['-'] ((splitDashL (replaceChar '_' '-' k).data).map capitalizeL)⟩

/-- The first pass of `normalize_headers`: rewrite every entry to its
canonical name and record the category sort value that the `category`
dict assigns to that name (`head.sort_order` for registered headers, `4`
for unknown ones, which `get_header` turns into an `AssertionError` when
`strict`).  Since the canonical name determines the category, the dict is
modelled by tagging each rewritten entry with its value. -/
def renameTag (strict : Bool) : List (String × String) → Except PyErr (List (Nat × String × String))
  | [] => .ok []
  | (k, v) :: rest =>
    match getHeader k with
    | some h =>
      match renameTag strict rest with
      | .ok r => .ok ((h.sortOrder, h.name, v) :: r)
      | .error e => .error e
    | none =>
      if strict then .error .assertionError
      else
        match renameTag strict rest with
        | .ok r => .ok ((4, canonicalUnknown k, v) :: r)
        | .error e => .error e

/-- Lexicographic string comparison by character ordinal, the order that
Python 2 `cmp` applies to the (ASCII) header name strings. -/
def nameLe : List Char → List Char → Bool
  | [], _ => true
  | _ :: _, [] => false
  | c :: cs, d :: ds =>
    if c.toNat < d.toNat then true
    else if d.toNat < c.toNat then false
    else nameLe cs ds

/-- The comparison function of `normalize_headers`: ascending category
value first, then ascending name. -/
def hdrLe (a b : Nat × String × String) : Prop :=
  a.1 < b.1 ∨ (a.1 = b.1 ∧ nameLe a.2.1.data b.2.1.data = true)

instance : DecidableRel hdrLe := fun a b => by
  unfold hdrLe
  exact inferInstance

/-- `normalize_headers(response_headers, strict)`: rename every entry,
then stable-sort by the comparison above (Python `list.sort(cmp)` is a
stable sort, modelled by insertion sort), mutating the list in place (the
new list value is returned here). -/
def normalizeHeaders (strict : Bool) (rh : List (String × String)) :
    Except PyErr (List (String × String)) :=
  match renameTag strict rh with
  | .error e => .error e
  | .ok tagged => .ok ((List.insertionSort hdrLe tagged).map (fun t => (t.2.1, t.2.2)))

/-- The category sort value that the sorted output of `normalize_headers`
exposes for a canonical name: the registered sort order, or `4` for a
name that is not registered. -/
def outSortOrder (n : String) : Nat :=
  match getHeader n with
  | some h => h.sortOrder
  | none => 4

/-- The registered `Host` accessor (a `SingleValueHeader`). -/
def HostH : HTTPHeader := ⟨"Host", .request, .single⟩

/-- The registered `Accept` accessor (a `MultiValueHeader`). -/
def AcceptH : HTTPHeader := ⟨"Accept", .request, .multi⟩

/-- The registered `Content-Type` accessor (a `SingleValueCGIHeader`). -/
def ContentTypeH : HTTPHeader := ⟨"Content-Type", .entity, .single⟩

/-- An `environ` holding only the mandatory `wsgi.version` key. -/
def envWsgiOnly : Env := ⟨fun _ => none, true⟩

/-- An `environ` with `wsgi.version` and the CGI variable `CONTENT_TYPE`,
but no `HTTP_CONTENT_TYPE`. -/
def envCgiOnly : Env := ⟨fun k => if k = "CONTENT_TYPE" then some "text/html" else none, true⟩

/-- A plain dictionary (no `wsgi.version`) holding `HTTP_HOST`. -/
def envPlainHost : Env := ⟨fun k => if k = "HTTP_HOST" then some "example.com" else none, false⟩

/-- A plain dictionary (no `wsgi.version`) holding only the CGI variable
`CONTENT_TYPE`. -/
def envPlainCgi : Env := ⟨fun k => if k = "CONTENT_TYPE" then some "text/html" else none, false⟩

/-- An `environ` with `wsgi.version` whose `Host` entry is present. -/
def envWithHost : Env := ⟨fun k => if k = "HTTP_HOST" then some "x" else none, true⟩

/-! ### Date round trip: `mktime_tz . parsedate_tz` inverts `formatdate` -/

theorem findYear_spec (d y : Nat) :
    ∃ k, findYear y d = (y + k, d - sumYears y k) ∧ sumYears y k ≤ d ∧
      d - sumYears y k < yearLen (y + k) := by
  induction d using Nat.strong_induction_on generalizing y with
  | _ d IH =>
    rw [findYear]
    split
    · exact ⟨0, by simp [sumYears], by simp [sumYears], by simpa [sumYears]⟩
    · rename_i h
      have h365 : 365 ≤ yearLen y := by unfold yearLen; split <;> omega
      obtain ⟨k, hEq, hLe, hLt⟩ := IH (d - yearLen y) (by omega) (y + 1)
      refine ⟨k + 1, ?_, ?_, ?_⟩
      · rw [hEq]
        have hs : sumYears y (k + 1) = yearLen y + sumYears (y + 1) k := rfl
        rw [hs, Prod.mk.injEq]
        constructor <;> omega
      · have hs : sumYears y (k + 1) = yearLen y + sumYears (y + 1) k := rfl
        omega
      · have h1 : sumYears y (k + 1) = yearLen y + sumYears (y + 1) k := rfl
        have h2 : y + (k + 1) = (y + 1) + k := by omega
        rw [h1, h2]
        omega

theorem findMonth_spec (ms : List Nat) : ∀ d : Nat, d < ms.sum →
    (findMonth ms d).1 < ms.length ∧
      ((ms.take (findMonth ms d).1).sum + (findMonth ms d).2 = d) := by
  induction ms with
  | nil => intro d hd; simp at hd
  | cons m ms IH =>
    intro d hd
    rw [findMonth]
    split
    · simp
    · rename_i h
      have hsum : (m :: ms).sum = m + ms.sum := by simp
      obtain ⟨hLt, hEq⟩ := IH (d - m) (by omega)
      constructor
      · simpa using hLt
      · simp only [List.take_succ_cons, List.sum_cons]
        omega

theorem monthLengths_sum (y : Nat) : (monthLengths y).sum = yearLen y := by
  unfold monthLengths yearLen
  by_cases hL : isLeap y = true <;> simp [hL]

/-- Parsing back the composed date fields recovers the epoch seconds
exactly, for every nonnegative epoch value. -/
theorem mktime_formatdate (t : Nat) : mktimeTz (formatdate t) = t := by
  obtain ⟨k, hEq, hLe, hLt⟩ := findYear_spec (t / 86400) 1970
  have hsum : (monthLengths (1970 + k)).sum = yearLen (1970 + k) := monthLengths_sum _
  obtain ⟨hmLt, hmEq⟩ := findMonth_spec (monthLengths (1970 + k))
    (t / 86400 - sumYears 1970 k) (by rw [hsum]; exact hLt)
  unfold formatdate mktimeTz daysBeforeYear
  simp only [hEq]
  simp only [Nat.add_sub_cancel_left, Nat.add_sub_cancel]
  omega

/-! ### Claim theorems C3, C4, C5, C6, C8, C9, C10 -/

/-- Claim C3 counterexample: `CacheControl.compose(private=True, max_age=10)`
does not raise; it succeeds and returns the value list
`['private', 'max-age=10']`, because the `private` branch of `_compose`
asserts only the absence of truthy `public`, `no_cache` and `s_maxage`. -/
theorem C3_counterexample :
    ccComposeValues none (some true) none false (some 10) none false [] =
      .ok ["private", "max-age=10"] := by decide

/-- Claim C3, amended: `private=True` combined with `max_age` succeeds and
yields `['private', 'max-age=10']`; the mutual exclusions that do raise the
error are `private=True` with a truthy `s_maxage`, and `no_cache=True`
with a truthy `max_age`. -/
theorem C3_amended :
    ccComposeValues none (some true) none false (some 10) none false [] =
      .ok ["private", "max-age=10"] ∧
    ccComposeValues none (some true) none false none (some 10) false [] =
      .error .assertionError ∧
    ccComposeValues none none (some true) false (some 10) none false [] =
      .error .assertionError := by decide

/-- Claim C4: registering the same (name, category, class) twice raises
nothing, but the two constructor calls do not return the same instance:
the first call returns `None` (the `__new__` body never returns the newly
created instance), and only the second call returns the registered
instance. -/
theorem C4_code :
    headerNew [] .single "X-Test" (some .request) =
      .ok ([("x-test", ⟨"X-Test", .request, .single⟩)], none) ∧
    headerNew [("x-test", ⟨"X-Test", .request, .single⟩)] .single "X-Test" (some .request) =
      .ok ([("x-test", ⟨"X-Test", .request, .single⟩)], some ⟨"X-Test", .request, .single⟩) ∧
    (none : Option HTTPHeader) ≠ some ⟨"X-Test", .request, .single⟩ := by
  refine ⟨by decide, by decide, by decide⟩

/-- Claim C5: when `update` computes an absent value (updating a response
list from an `environ` that has no `Host` entry), the call does not degrade
to `delete`; it raises `AttributeError`, because the absent-value branch
executes `self.remove(connection)` and `HTTPHeader` has no attribute
`remove`.  `delete` itself would have removed the entry without error. -/
theorem C5_code :
    HostH.update (.resp [("Host", "old")]) (.dictArg envWsgiOnly false false) =
      .error .attributeError ∧
    HostH.delete (.resp [("Host", "old")]) = .resp [] := by
  exact ⟨rfl, rfl⟩

/-- Claim C6: supplying keyword arguments together with a collection or
with literal values does not raise `AmbiguousCallError`; `__call__` never
inspects `kwargs` once positional arguments are present, so the mixed
calls silently succeed (the trailing `true` flags record the presence of
keyword arguments). -/
theorem C6_code :
    HostH.call (.listArg [("Host", "x")] false true) = .ok (.str "x") ∧
    HostH.call (.dictArg envWithHost false true) = .ok (.str "x") ∧
    HostH.call (.strArgs ["x"] true) = .ok (.str "x") := by
  refine ⟨by decide, rfl, by decide⟩

/-- Claim C8: for `Content-Type` read from the request shape, the read
falls back to the unprefixed CGI variable when `HTTP_CONTENT_TYPE` is
absent; but when the CGI variable is also absent the read does not return
absent — it returns the string `"None"`, because the fallback passes the
`None` lookup result to `format`, which renders it with `str()`. -/
theorem C8_code :
    cgiCallDict ContentTypeH envCgiOnly = .ok (.str "text/html") ∧
    cgiCallDict ContentTypeH envWsgiOnly = .ok (.str "None") ∧
    HVal.str "None" ≠ HVal.none := by
  refine ⟨rfl, rfl, by decide⟩

/-- Claim C9 counterexample: the round trip fails at `T = 0`: since
`compose` computes `time = time or now()`, the integer `0` is falsy and
the current clock (here `1000`) is substituted, so parsing back yields
`1000`, not `0`. -/
theorem C9_counterexample :
    dateTime (dateCompose 1000 (some 0) none) = 1000 ∧ (1000 : Nat) ≠ 0 := by
  refine ⟨?_, by decide⟩
  show mktimeTz (formatdate 1000) = 1000
  exact mktime_formatdate 1000

/-- Claim C9, amended: for every nonzero (positive) integer epoch-seconds
value `T`, parsing back the value produced by `DateHeader.compose(time=T)`
yields exactly `T`, whatever the current clock reads; at `T = 0` the
composed value uses the current clock instead. -/
theorem C9_amended (T nowv : Nat) (hT : T ≠ 0) :
    dateTime (dateCompose nowv (some T) none) = T := by
  unfold dateTime dateCompose
  simp only [hT, if_false]
  exact mktime_formatdate T

/-- Witness for C9: the round trip at `T = 3` with the clock at `77`. -/
theorem C9_witness :
    (3 : Nat) ≠ 0 ∧ dateTime (dateCompose 77 (some 3) none) = 3 :=
  ⟨by decide, C9_amended 3 77 (by decide)⟩

/-- Claim C10, amended: every read through the generic `environ` branch of
`__call__` asserts that `wsgi.version` is present and fails with
`AssertionError` when it is not, even when the mapped header key is
present; but the `Content-Type`/`Content-Length` CGI fallback (taken when
the `HTTP_` key is absent or empty) performs no such check, so a plain
dictionary of CGI keys is accepted by those two accessors. -/
theorem C10_amended (h : HTTPHeader) (e : Env) (hw : e.hasWsgiVersion = false) :
    h.call (.dictArg e false false) = .error .assertionError := by
  simp [HTTPHeader.call, hw]

/-- Witness for C10: reading `Host` from a plain dictionary that does hold
`HTTP_HOST` but no `wsgi.version` raises the assertion. -/
theorem C10_witness :
    HostH.call (.dictArg envPlainHost false false) = .error .assertionError :=
  C10_amended HostH envPlainHost rfl

/-- Claim C10 counterexample: `Content-Type` read from a plain dictionary
without `wsgi.version` succeeds through the CGI fallback, so the claimed
assertion requirement does not hold for every header. -/
theorem C10_counterexample :
    cgiCallDict ContentTypeH envPlainCgi = .ok (.str "text/html") := by rfl

/-! ### Strip and join lemmas on character lists -/

section StringLemmas

variable {p : Char → Bool}

theorem dropWhile_head?_false {l : List Char} {c : Char}
    (h : (l.dropWhile p).head? = some c) : p c = false := by
  induction l with
  | nil => simp at h
  | cons a t IH =>
    by_cases hp : p a = true
    · rw [List.dropWhile_cons, if_pos hp] at h
      exact IH h
    · rw [List.dropWhile_cons, if_neg hp] at h
      simp at h
      subst h
      simpa using hp

theorem dropWhile_of_clean_head {l : List Char}
    (h : ∀ c, l.head? = some c → p c = false) : l.dropWhile p = l := by
  cases l with
  | nil => rfl
  | cons a t =>
    have ha : p a = false := h a rfl
    simp [List.dropWhile_cons, ha]

theorem getLast?_dropWhile {l : List Char} (h : l.dropWhile p ≠ []) :
    (l.dropWhile p).getLast? = l.getLast? := by
  induction l with
  | nil => simp at h
  | cons a t IH =>
    by_cases hp : p a = true
    · rw [List.dropWhile_cons, if_pos hp] at h ⊢
      have ht : t ≠ [] := by
        intro h0
        rw [h0] at h
        simp at h
      rw [IH h]
      cases t with
      | nil => exact absurd rfl ht
      | cons b t2 => exact List.getLast?_cons_cons.symm
    · rw [List.dropWhile_cons, if_neg hp]

theorem stripL_of_clean {l : List Char}
    (h1 : ∀ c, l.head? = some c → p c = false)
    (h2 : ∀ c, l.getLast? = some c → p c = false) : stripL p l = l := by
  unfold stripL rstripL
  rw [dropWhile_of_clean_head h1]
  have hrev : l.reverse.dropWhile p = l.reverse := by
    apply dropWhile_of_clean_head
    intro c hc
    rw [List.head?_reverse] at hc
    exact h2 c hc
  rw [hrev, List.reverse_reverse]

theorem stripL_clean_head (l : List Char) :
    ∀ c, (stripL p l).head? = some c → p c = false := by
  intro c hc
  unfold stripL rstripL at hc
  rw [List.head?_reverse] at hc
  have hne : (l.dropWhile p).reverse.dropWhile p ≠ [] := by
    intro h0
    rw [h0] at hc
    simp at hc
  rw [getLast?_dropWhile hne, List.getLast?_reverse] at hc
  exact dropWhile_head?_false hc

theorem stripL_clean_last (l : List Char) :
    ∀ c, (stripL p l).getLast? = some c → p c = false := by
  intro c hc
  unfold stripL rstripL at hc
  rw [List.getLast?_reverse] at hc
  exact dropWhile_head?_false hc

theorem stripL_idem (l : List Char) : stripL p (stripL p l) = stripL p l :=
  stripL_of_clean (stripL_clean_head l) (stripL_clean_last l)

theorem joinL_head? (sep : List Char) (x : List Char) (xs : List (List Char))
    (hx : x ≠ []) : (joinL sep (x :: xs)).head? = x.head? := by
  cases xs with
  | nil => rfl
  | cons y r =>
    show ((x ++ sep) ++ joinL sep (y :: r)).head? = x.head?
    cases x with
    | nil => exact absurd rfl hx
    | cons c t => simp

theorem joinL_ne_nil (sep : List Char) (x : List Char) (xs : List (List Char))
    (hx : x ≠ []) : joinL sep (x :: xs) ≠ [] := by
  intro h0
  have hh := joinL_head? sep x xs hx
  rw [h0] at hh
  cases x with
  | nil => exact hx rfl
  | cons c t => simp at hh

theorem joinL_getLast? (sep : List Char) :
    ∀ xs : List (List Char), (∀ x ∈ xs, x ≠ []) → xs ≠ [] →
      ∃ y ∈ xs, (joinL sep xs).getLast? = y.getLast? := by
  intro xs
  induction xs with
  | nil => intro _ h; exact absurd rfl h
  | cons x t IH =>
    intro hall _
    cases t with
    | nil => exact ⟨x, by simp, rfl⟩
    | cons y r =>
      have hy : y ≠ [] := hall y (by simp)
      have hne : joinL sep (y :: r) ≠ [] := joinL_ne_nil sep y r hy
      obtain ⟨z, hz, hzeq⟩ := IH (fun a ha => hall a (by simp [ha])) (by simp)
      refine ⟨z, by simp [hz], ?_⟩
      show ((x ++ sep) ++ joinL sep (y :: r)).getLast? = z.getLast?
      rw [List.getLast?_append_of_ne_nil (x ++ sep) hne]
      exact hzeq

end StringLemmas

theorem pstrip_idem (s : String) : pstrip (pstrip s) = pstrip s := by
  show (⟨stripL isPySpace (stripL isPySpace s.data)⟩ : String) = ⟨stripL isPySpace s.data⟩
  exact congrArg String.mk (stripL_idem s.data)

theorem string_data_ne_nil {s : String} (h : s ≠ "") : s.data ≠ [] := by
  intro h0
  apply h
  cases s with
  | mk d =>
    have hd : d = [] := h0
    rw [hd]

theorem pstrip_eq_self_data {s : String} (h : pstrip s = s) :
    stripL isPySpace s.data = s.data :=
  congrArg String.data h

theorem map_pstrip_of_clean (vs : List String) (hclean : ∀ v ∈ vs, pstrip v = v) :
    vs.map pstrip = vs := by
  induction vs with
  | nil => rfl
  | cons v vt IH =>
    rw [List.map_cons, hclean v (by simp), IH (fun w hw => hclean w (by simp [hw]))]

theorem pstrip_pjoin (vs : List String) (hne : vs ≠ [])
    (hclean : ∀ v ∈ vs, pstrip v = v ∧ v ≠ "") :
    pstrip (pjoin ", " vs) = pjoin ", " vs := by
  show (⟨stripL isPySpace (joinL ", ".data (vs.map String.data))⟩ : String) =
    ⟨joinL ", ".data (vs.map String.data)⟩
  refine congrArg String.mk (stripL_of_clean ?_ ?_)
  · cases vs with
    | nil => exact absurd rfl hne
    | cons v vt =>
      intro c hc
      have hv := hclean v (by simp)
      have hvd : v.data ≠ [] := string_data_ne_nil hv.2
      rw [show ((v :: vt).map String.data) = v.data :: vt.map String.data from rfl,
        joinL_head? _ _ _ hvd] at hc
      have hs : stripL isPySpace v.data = v.data := pstrip_eq_self_data hv.1
      have hcl := stripL_clean_head (p := isPySpace) v.data c
      rw [hs] at hcl
      exact hcl hc
  · intro c hc
    obtain ⟨y, hy, hyeq⟩ := joinL_getLast? ", ".data (vs.map String.data)
      (by
        intro x hx
        obtain ⟨w, hw, rfl⟩ := List.mem_map.mp hx
        exact string_data_ne_nil (hclean w hw).2)
      (by
        intro h0
        exact hne (List.map_eq_nil_iff.mp h0))
    rw [hyeq] at hc
    obtain ⟨w, hw, rfl⟩ := List.mem_map.mp hy
    have hs : stripL isPySpace w.data = w.data := pstrip_eq_self_data (hclean w hw).1
    have hcl := stripL_clean_last (p := isPySpace) w.data c
    rw [hs] at hcl
    exact hcl hc

/-! ### Reduction lemmas for `format` and `update` -/

theorem format_single (h : HTTPHeader) (hs : h.style = .single) (v : Option String) :
    h.format [v] = .ok (.str (pstrip (pyStr v))) := by
  simp [HTTPHeader.format, hs]

theorem format_multi (h : HTTPHeader) (hm : h.style = .multi)
    (v : Option String) (vt : List (Option String)) :
    h.format (v :: vt) =
      .ok (.str (pjoin ", " ((v :: vt).map (fun x => pstrip (pyStr x))))) := by
  simp [HTTPHeader.format, hm]

theorem updList_filter (n low val : String) (hn : lowerStr n = low) :
    ∀ (l : List (String × String)) (b : Bool),
      (HTTPHeader.updList n low val l b).filter (fun p => lowerStr p.1 = low) =
        if b then [] else [(n, val)] := by
  intro l
  induction l with
  | nil =>
    intro b
    cases b
    · simp [HTTPHeader.updList, List.filter, hn]
    · simp [HTTPHeader.updList]
  | cons kv t IH =>
    intro b
    obtain ⟨k, w⟩ := kv
    by_cases hk : lowerStr k = low
    · cases b
      · simp [HTTPHeader.updList, hk, List.filter_cons, hn, IH true]
      · simp [HTTPHeader.updList, hk, IH true]
    · cases b
      · simp [HTTPHeader.updList, hk, List.filter_cons, IH false]
      · simp [HTTPHeader.updList, hk, List.filter_cons, IH true]

/-! ### Claim theorems C1 and C2 -/

/-- Claim C1 counterexample: updating the empty response list with the
value `" a "` stores and reads back the stripped string `"a"`, not the
supplied value, because `SingleValueHeader.format` applies `str(...).strip()`
both when storing and when reading. -/
theorem C1_counterexample :
    HostH.update (.resp []) (.strArgs [" a "] false) =
      .ok (.resp [("Host", "a")], .str "a") ∧
    HostH.call (.listArg [("Host", "a")] false false) = .ok (.str "a") ∧
    HVal.str "a" ≠ HVal.str " a " := by
  refine ⟨rfl, by decide, by decide⟩

/-- Claim C1, amended: for every single-value header and every collection
of either shape, `update` with a string value `v` stores the stripped
value `v.strip()`; reading afterwards returns exactly `v.strip()` (which
equals `v` whenever `v` has no surrounding whitespace), and the collection
holds exactly one entry matching the field-name (dict keys are unique, and
for the response shape the matching entries of the updated list number
exactly one). -/
theorem C1_amended (h : HTTPHeader) (hs : h.style = .single) (l : List (String × String))
    (e : Env) (hw : e.hasWsgiVersion = true) (v : String) :
    h.update (.resp l) (.strArgs [v] false) =
      .ok (.resp (HTTPHeader.updList h.name h.headersName (pstrip v) l false),
        .str (pstrip v)) ∧
    h.call (.listArg (HTTPHeader.updList h.name h.headersName (pstrip v) l false)
        false false) = .ok (.str (pstrip v)) ∧
    ((HTTPHeader.updList h.name h.headersName (pstrip v) l false).filter
        (fun p => lowerStr p.1 = h.headersName)).length = 1 ∧
    h.update (.env e) (.strArgs [v] false) =
      .ok (.env (e.set h.environName (pstrip v)), .str (pstrip v)) ∧
    h.call (.dictArg (e.set h.environName (pstrip v)) false false) =
      .ok (.str (pstrip v)) := by
  have hmE : ¬(h.style = .multiEntry) := by rw [hs]; intro hx; cases hx
  have hfilter := updList_filter h.name h.headersName (pstrip v) rfl l false
  refine ⟨?_, ?_, ?_, ?_, ?_⟩
  · unfold HTTPHeader.update
    rw [if_neg hmE]
    show (match h.call (.strArgs [v] false) with
      | .error e => .error e
      | .ok .none => .error .attributeError
      | .ok (.str s) =>
        .ok (.resp (HTTPHeader.updList h.name h.headersName s l false), .str s)
      | .ok (.list _) => .error .attributeError :
        Except PyErr (Collection × HVal)) = _
    have hc : h.call (.strArgs [v] false) = .ok (.str (pstrip v)) := by
      show h.format [some v] = _
      rw [format_single h hs (some v)]
      rfl
    rw [hc]
  · show h.format (((HTTPHeader.updList h.name h.headersName (pstrip v) l false).filter
      (fun p => lowerStr p.1 = h.headersName)).map (fun p => some p.2)) = _
    rw [hfilter]
    show h.format [some (pstrip v)] = _
    rw [format_single h hs (some (pstrip v))]
    show Except.ok (HVal.str (pstrip (pstrip v))) = _
    rw [pstrip_idem]
  · rw [hfilter]
    rfl
  · unfold HTTPHeader.update
    rw [if_neg hmE]
    show (match h.call (.strArgs [v] false) with
      | .error e => .error e
      | .ok .none => .error .attributeError
      | .ok (.str s) => .ok (.env (e.set h.environName s), .str s)
      | .ok (.list _) => .error .attributeError :
        Except PyErr (Collection × HVal)) = _
    have hc : h.call (.strArgs [v] false) = .ok (.str (pstrip v)) := by
      show h.format [some v] = _
      rw [format_single h hs (some v)]
      rfl
    rw [hc]
  · show (if false || !(e.set h.environName (pstrip v)).hasWsgiVersion
        then Except.error PyErr.assertionError
        else match (e.set h.environName (pstrip v)).get h.environName with
          | none => .ok .none
          | some w => h.format [some w]) = _
    have hwv : (e.set h.environName (pstrip v)).hasWsgiVersion = true := hw
    rw [hwv]
    have hget : (e.set h.environName (pstrip v)).get h.environName = some (pstrip v) := by
      show (if h.environName = h.environName then some (pstrip v)
        else e.get h.environName) = _
      rw [if_pos rfl]
    rw [hget]
    show h.format [some (pstrip v)] = _
    rw [format_single h hs (some (pstrip v))]
    show Except.ok (HVal.str (pstrip (pstrip v))) = _
    rw [pstrip_idem]

/-- Witness for C1 at the `Host` header: the response list already holds a
differently-capitalized entry, and the request shape holds `wsgi.version`. -/
theorem C1_witness :
    HostH.update (.resp [("HOST", "z")]) (.strArgs [" a "] false) =
      .ok (.resp (HTTPHeader.updList HostH.name HostH.headersName (pstrip " a ")
        [("HOST", "z")] false), .str (pstrip " a ")) ∧
    HostH.call (.listArg (HTTPHeader.updList HostH.name HostH.headersName (pstrip " a ")
        [("HOST", "z")] false) false false) = .ok (.str (pstrip " a ")) ∧
    ((HTTPHeader.updList HostH.name HostH.headersName (pstrip " a ")
        [("HOST", "z")] false).filter
        (fun p => lowerStr p.1 = HostH.headersName)).length = 1 ∧
    HostH.update (.env envWithHost) (.strArgs [" a "] false) =
      .ok (.env (envWithHost.set HostH.environName (pstrip " a ")), .str (pstrip " a ")) ∧
    HostH.call (.dictArg (envWithHost.set HostH.environName (pstrip " a ")) false false) =
      .ok (.str (pstrip " a ")) :=
  C1_amended HostH rfl [("HOST", "z")] envWithHost rfl " a "

/-- Claim C2 counterexample: storing the raw values `["a ", "b"]` as two
separate entries reads back as `"a, b"` (each value stripped before the
join), while storing the single comma-joined entry `"a , b"` reads back as
`"a , b"` (only the ends of the whole string are stripped), so the two
storage forms disagree. -/
theorem C2_counterexample :
    AcceptH.call (.listArg [("Accept", "a "), ("Accept", "b")] false false) =
      .ok (.str "a, b") ∧
    AcceptH.call (.listArg [("Accept", pjoin ", " ["a ", "b"])] false false) =
      .ok (.str "a , b") ∧
    HVal.str "a, b" ≠ HVal.str "a , b" := by
  refine ⟨by decide, by decide, by decide⟩

/-- Claim C2, amended: for every multi-value header and every nonempty
list of raw values each of which is nonempty and free of surrounding
whitespace (`v.strip() == v` and `v != ""`), reading the values stored as
separate entries and reading them stored as one comma-joined entry both
yield the comma-join of the values. -/
theorem C2_amended (h : HTTPHeader) (hm : h.style = .multi) (vs : List String)
    (hne : vs ≠ []) (hclean : ∀ v ∈ vs, pstrip v = v ∧ v ≠ "") :
    h.call (.listArg (vs.map (fun v => (h.name, v))) false false) =
      .ok (.str (pjoin ", " vs)) ∧
    h.call (.listArg [(h.name, pjoin ", " vs)] false false) =
      .ok (.str (pjoin ", " vs)) := by
  constructor
  · show h.format (((vs.map (fun v => (h.name, v))).filter
      (fun p => lowerStr p.1 = h.headersName)).map (fun p => some p.2)) = _
    have hf : (vs.map (fun v => (h.name, v))).filter
        (fun p => lowerStr p.1 = h.headersName) = vs.map (fun v => (h.name, v)) := by
      apply List.filter_eq_self.mpr
      intro a ha
      obtain ⟨w, hw, rfl⟩ := List.mem_map.mp ha
      simp [HTTPHeader.headersName]
    rw [hf, List.map_map]
    have hcomp : ((fun p : String × String => some p.2) ∘ (fun v => (h.name, v))) =
        (fun v : String => some v) := rfl
    rw [hcomp]
    cases vs with
    | nil => exact absurd rfl hne
    | cons v vt =>
      rw [show (v :: vt).map (fun v : String => some v) = some v :: vt.map some from rfl]
      rw [format_multi h hm (some v) (vt.map some)]
      have hmap : ((some v :: vt.map some).map (fun x => pstrip (pyStr x))) = v :: vt := by
        rw [List.map_cons, List.map_map]
        have h1 : pstrip (pyStr (some v)) = v := (hclean v (by simp)).1
        have h2 : ((fun x => pstrip (pyStr x)) ∘ (fun w : String => some w)) = pstrip := rfl
        rw [h1, h2, map_pstrip_of_clean vt (fun w hw => (hclean w (by simp [hw])).1)]
      rw [hmap]
  · show h.format (([(h.name, pjoin ", " vs)].filter
      (fun p => lowerStr p.1 = h.headersName)).map (fun p => some p.2)) = _
    have hf : [(h.name, pjoin ", " vs)].filter (fun p => lowerStr p.1 = h.headersName) =
        [(h.name, pjoin ", " vs)] := by
      simp [HTTPHeader.headersName]
    rw [hf]
    show h.format [some (pjoin ", " vs)] = _
    rw [format_multi h hm (some (pjoin ", " vs)) []]
    show Except.ok (HVal.str (pjoin ", " [pstrip (pjoin ", " vs)])) = _
    rw [pstrip_pjoin vs hne hclean]
    rfl

/-- Witness for C2 at the `Accept` header with the values `["a", "b"]`. -/
theorem C2_witness :
    AcceptH.call (.listArg (["a", "b"].map (fun v => (AcceptH.name, v))) false false) =
      .ok (.str (pjoin ", " ["a", "b"])) ∧
    AcceptH.call (.listArg [(AcceptH.name, pjoin ", " ["a", "b"])] false false) =
      .ok (.str (pjoin ", " ["a", "b"])) :=
  C2_amended AcceptH rfl ["a", "b"] (by decide) (by decide)

/-! ### Sortedness of `normalize_headers` -/

theorem nameLe_total (a : List Char) : ∀ b, nameLe a b = true ∨ nameLe b a = true := by
  induction a with
  | nil => intro b; left; rfl
  | cons c cs IH =>
    intro b
    cases b with
    | nil => right; rfl
    | cons d ds =>
      by_cases h1 : c.toNat < d.toNat
      · left; simp [nameLe, h1]
      · by_cases h2 : d.toNat < c.toNat
        · right; simp [nameLe, h2]
        · rcases IH ds with h | h
          · left; simp [nameLe, h1, h2, h]
          · right; simp [nameLe, h1, h2, h]

theorem nameLe_trans {a : List Char} : ∀ {b c : List Char},
    nameLe a b = true → nameLe b c = true → nameLe a c = true := by
  induction a with
  | nil => intro b c _ _; rfl
  | cons x xs IH =>
    intro b c h1 h2
    cases b with
    | nil => simp [nameLe] at h1
    | cons y ys =>
      cases c with
      | nil => simp [nameLe] at h2
      | cons z zs =>
        by_cases hxy : x.toNat < y.toNat
        · by_cases hyz : y.toNat < z.toNat
          · simp [nameLe, show x.toNat < z.toNat by omega]
          · by_cases hzy : z.toNat < y.toNat
            · simp [nameLe, hyz, hzy] at h2
            · simp [nameLe, show x.toNat < z.toNat by omega]
        · by_cases hyx : y.toNat < x.toNat
          · simp [nameLe, hxy, hyx] at h1
          · simp only [nameLe, if_neg hxy, if_neg hyx] at h1
            by_cases hyz : y.toNat < z.toNat
            · simp [nameLe, show x.toNat < z.toNat by omega]
            · by_cases hzy : z.toNat < y.toNat
              · simp [nameLe, hyz, hzy] at h2
              · simp only [nameLe, if_neg hyz, if_neg hzy] at h2
                have hxz : ¬x.toNat < z.toNat := by omega
                have hzx : ¬z.toNat < x.toNat := by omega
                simp only [nameLe, if_neg hxz, if_neg hzx]
                exact IH h1 h2

theorem hdrLe_total : ∀ a b, hdrLe a b ∨ hdrLe b a := by
  intro a b
  unfold hdrLe
  rcases Nat.lt_trichotomy a.1 b.1 with h | h | h
  · exact .inl (.inl h)
  · rcases nameLe_total a.2.1.data b.2.1.data with h2 | h2
    · exact .inl (.inr ⟨h, h2⟩)
    · exact .inr (.inr ⟨h.symm, h2⟩)
  · exact .inr (.inl h)

theorem hdrLe_trans : ∀ a b c, hdrLe a b → hdrLe b c → hdrLe a c := by
  intro a b c hab hbc
  unfold hdrLe at hab hbc ⊢
  rcases hab with h1 | ⟨h1, h1'⟩ <;> rcases hbc with h2 | ⟨h2, h2'⟩
  · exact .inl (h1.trans h2)
  · exact .inl (h2 ▸ h1)
  · exact .inl (h1 ▸ h2)
  · exact .inr ⟨h1.trans h2, nameLe_trans h1' h2'⟩

/-- Looking a registered header up by its own canonical name yields that
header (the lower-cased names of `theHeaders` are pairwise distinct). -/
theorem theHeaders_canon : ∀ h ∈ theHeaders, getHeader h.name = some h := by decide

/-- Every tag produced by the strict renaming pass is the category sort
value determined by the entry's canonical name. -/
theorem renameTag_coherent (rh : List (String × String)) :
    ∀ tagged, renameTag true rh = .ok tagged →
      ∀ t ∈ tagged, t.1 = outSortOrder t.2.1 := by
  induction rh with
  | nil =>
    intro tagged ht t hmem
    rw [show renameTag true [] = .ok [] from rfl] at ht
    cases ht
    simp at hmem
  | cons kv rest IH =>
    intro tagged ht t hmem
    obtain ⟨k, v⟩ := kv
    rw [show renameTag true ((k, v) :: rest) =
      (match getHeader k with
        | some h =>
          match renameTag true rest with
          | .ok r => .ok ((h.sortOrder, h.name, v) :: r)
          | .error e => .error e
        | none => .error .assertionError) from rfl] at ht
    cases hk : getHeader k with
    | none => rw [hk] at ht; cases ht
    | some hh =>
      rw [hk] at ht
      cases hr : renameTag true rest with
      | error e => rw [hr] at ht; cases ht
      | ok r =>
        rw [hr] at ht
        cases ht
        rcases List.mem_cons.mp hmem with rfl | hmem2
        · have hmemH : hh ∈ theHeaders := by
            have := List.mem_of_find?_eq_some hk
            exact this
          show hh.sortOrder = outSortOrder hh.name
          unfold outSortOrder
          rw [theHeaders_canon hh hmemH]
        · exact IH r hr t hmem2

/-- Claim C7 counterexample: `Server` and `Location` are both
response-category headers, yet `normalize_headers` swaps their input
order, because entries of the same category are ordered by name rather
than kept in input order. -/
theorem C7_counterexample :
    normalizeHeaders true [("Server", "s"), ("Location", "l")] =
      .ok [("Location", "l"), ("Server", "s")] ∧
    outSortOrder "Server" = outSortOrder "Location" := by
  refine ⟨by decide, by decide⟩

/-- Claim C7, amended: `normalize_headers` stable-sorts the renamed
entries by category sort value and then by canonical name (entries of the
same category are reordered by name; only entries with equal category and
name keep their relative input order), with unknown headers given the
entity sort value 4 rather than a value strictly after every known
header.  The output is the name-normalized input sorted that way; when
`strict` is set, the output is pairwise ordered by the category value and
name that its entries expose. -/
theorem C7_amended (strict : Bool) (rh out : List (String × String))
    (hn : normalizeHeaders strict rh = .ok out) :
    ∃ tagged, renameTag strict rh = .ok tagged ∧
      out = (List.insertionSort hdrLe tagged).map (fun t => (t.2.1, t.2.2)) ∧
      (List.insertionSort hdrLe tagged).Pairwise hdrLe ∧
      out.Perm (tagged.map (fun t => (t.2.1, t.2.2))) ∧
      (strict = true →
        out.Pairwise (fun a b =>
          outSortOrder a.1 < outSortOrder b.1 ∨
            (outSortOrder a.1 = outSortOrder b.1 ∧ nameLe a.1.data b.1.data = true))) := by
  unfold normalizeHeaders at hn
  cases hr : renameTag strict rh with
  | error e => rw [hr] at hn; cases hn
  | ok tagged =>
    rw [hr] at hn
    cases hn
    haveI : IsTotal (Nat × String × String) hdrLe := ⟨hdrLe_total⟩
    haveI : IsTrans (Nat × String × String) hdrLe := ⟨hdrLe_trans⟩
    have hsorted : (List.insertionSort hdrLe tagged).Pairwise hdrLe :=
      List.sorted_insertionSort hdrLe tagged
    refine ⟨tagged, rfl, rfl, hsorted, (List.perm_insertionSort hdrLe tagged).map _, ?_⟩
    intro hstrict
    subst hstrict
    have hco := renameTag_coherent rh tagged hr
    rw [List.pairwise_map]
    refine hsorted.imp_of_mem ?_
    intro a b ha hb hab
    have ha2 : a ∈ tagged := (List.perm_insertionSort hdrLe tagged).mem_iff.mp ha
    have hb2 : b ∈ tagged := (List.perm_insertionSort hdrLe tagged).mem_iff.mp hb
    have e1 := hco a ha2
    have e2 := hco b hb2
    unfold hdrLe at hab
    rw [e1, e2] at hab
    exact hab

/-- Witness for C7: the amended theorem applied to the concrete
counterexample input. -/
theorem C7_witness :
    ∃ tagged, renameTag true [("Server", "s"), ("Location", "l")] = .ok tagged ∧
      [("Location", "l"), ("Server", "s")] =
        (List.insertionSort hdrLe tagged).map (fun t => (t.2.1, t.2.2)) ∧
      (List.insertionSort hdrLe tagged).Pairwise hdrLe ∧
      ([("Location", "l"), ("Server", "s")].Perm
        (tagged.map (fun t => (t.2.1, t.2.2)))) ∧
      (true = true →
        [("Location", "l"), ("Server", "s")].Pairwise (fun a b =>
          outSortOrder a.1 < outSortOrder b.1 ∨
            (outSortOrder a.1 = outSortOrder b.1 ∧ nameLe a.1.data b.1.data = true))) :=
  C7_amended true [("Server", "s"), ("Location", "l")]
    [("Location", "l"), ("Server", "s")] (by decide)
